import Mathlib

set_option maxHeartbeats 1000000

/-!
Verification development for the nmigen resource/connector resolution core and
the Lattice iCE40 platform I/O binder.

The iCE40 binder (`src/nmigen/vendor/lattice_ice40.py`) is embedded directly
from the source in namespace ICE40.  The ResourceManager
(`nmigen/build/res.py`) is not part of the provided sources (only its test
suite is), so its data model and operations are modelled from the
specification, in namespace BuildRes; every such definition is marked
`Modelled from the spec:`.
-/

/-- First-match association-list lookup, the shallow embedding of Python dict
access on the (insertion-ordered) mappings used throughout the code. -/
def flookup {κ β : Type} [DecidableEq κ] (k : κ) : List (κ × β) → Option β
| [] => none
| (k', v) :: rest => if k' = k then some v else flookup k rest

/-- Whether an exceptional computation succeeded. -/
def okE {ε α : Type} : Except ε α → Bool
| .ok _ => true
| .error _ => false

/-- The error produced by a failed exceptional computation, if any. -/
def errE {ε α : Type} : Except ε α → Option ε
| .ok _ => none
| .error e => some e

namespace ICE40

/-- Direction of a bound pin; the strings "i", "o", "oe", "io" in the source. -/
inductive PinDir
| i
| o
| oe
| io
deriving DecidableEq

/-- Python `"i" in pin.dir` over the direction strings. -/
def PinDir.hasI : PinDir → Bool
| .i => true
| .io => true
| _ => false

/-- Python `"o" in pin.dir` over the direction strings (note `"o" in "oe"`). -/
def PinDir.hasO : PinDir → Bool
| .o => true
| .oe => true
| .io => true
| _ => false

/-- A value appearing as an I/O-cell argument: a (bit of a) named signal, an
integer parameter, or a string parameter. -/
inductive IOVal
| sig (name : String) (bit : Option Nat)
| num (n : Int)
| sval (s : String)
deriving DecidableEq

/-- Python truthiness of an attribute value, as used by `bool(attrs["GLOBAL"])`. -/
def IOVal.truthy : IOVal → Bool
| .sig _ _ => true
| .num n => n != 0
| .sval s => s != ""

/-- One argument of an I/O cell instantiation: kind ("io"/"p"/"i"/"o"), key,
value, mirroring the `io_args` tuples of `_get_io_buffer`. -/
structure IOArg where
  kind : String
  key : String
  val : IOVal
deriving DecidableEq

/-- A primitive emitted into the module by the binder: a width-wide `$dff`, a
per-bit SB_LUT4 passthrough/inverter, or an SB_IO / SB_GB_IO cell. -/
inductive Cell
| dff (clk : String) (width : Nat) (d : String) (q : String)
| lut4 (init : Nat) (inp : String) (inBit : Nat) (out : String) (outBit : Nat)
| sbCell (global : Bool) (args : List IOArg)
deriving DecidableEq

def Cell.isDff : Cell → Bool
| .dff .. => true
| _ => false

def Cell.isLut : Cell → Bool
| .lut4 .. => true
| _ => false

def Cell.isPrim : Cell → Bool
| .sbCell .. => true
| _ => false

/-- The slice of a bound Pin that `_get_io_buffer` consumes: direction, data
rate, and width.  The per-direction signals are referred to by their field
names ("i", "i0", "o1", "i_clk", ...). -/
structure PinSpec where
  dir : PinDir
  xdr : Nat
  width : Nat
deriving DecidableEq

/-- Modelled from the spec: the bound interface carries the associated clock
handle exactly for registered data rates, so `hasattr(pin, "i_clk")` holds iff
the pin has input capability and xdr is at least 1 (nmigen/lib/io.py is not in
the provided sources; spec section 3 gives the Pin layout per xdr). -/
def PinSpec.hasIClk (p : PinSpec) : Bool := p.dir.hasI && (p.xdr != 0)

/-- Modelled from the spec: `hasattr(pin, "o_clk")`, see PinSpec.hasIClk. -/
def PinSpec.hasOClk (p : PinSpec) : Bool := p.dir.hasO && (p.xdr != 0)

/-- Name of the fresh signal created by `Signal.like(y, name_suffix="_x{0|1}")`
inside get_ixor / get_oxor. -/
def xname (y : String) (invert : Bool) : String :=
  y ++ "_x" ++ (if invert then "1" else "0")

/-- get_ixor: name of the signal returned to the caller (the fabric side of the
optional explicit-inversion passthrough). -/
def ixorName (y : String) : Option Bool → String
| none => y
| some b => xname y b

/-- get_ixor: the SB_LUT4 cells it adds, one per bit, driving y[bit] from
a[bit] with LUT_INIT 0b01 (inverter) or 0b10 (buffer). -/
def ixorCells (y : String) (w : Nat) : Option Bool → List Cell
| none => []
| some b => (List.range w).map (fun bit => .lut4 (if b then 1 else 2) (xname y b) bit y bit)

/-- get_oxor: name of the signal handed to the I/O cell. -/
def oxorName (a : String) : Option Bool → String
| none => a
| some b => xname a b

/-- get_oxor: the SB_LUT4 cells it adds, one per bit, driving y[bit] from
a[bit]. -/
def oxorCells (a : String) (w : Nat) : Option Bool → List Cell
| none => []
| some b => (List.range w).map (fun bit => .lut4 (if b then 1 else 2) a bit (xname a b) bit)

/-- Python truthiness of the optional invert argument (None is falsy). -/
def truthyOpt : Option Bool → Bool
| some b => b
| none => false

/-- `is_global_input`: truthiness of the GLOBAL attribute when present. -/
def globalTruthy (attrs : List (String × IOVal)) : Bool :=
  match flookup "GLOBAL" attrs with
  | some v => v.truthy
  | none => false

/-- i_type of the PIN_TYPE encoding table in `_get_io_buffer`. -/
def iTypeCode (d : PinDir) (xdr : Nat) : Nat :=
  if d.hasI = false then 0
  else if xdr = 0 then 1
  else 0

/-- o_type of the PIN_TYPE encoding table in `_get_io_buffer` (for the xdr
values 0..2 admitted by `_check_feature`). -/
def oTypeCode (d : PinDir) (xdr : Nat) : Nat :=
  if d.hasO = false then 0
  else if xdr = 0 ∧ d = .o then 6
  else if xdr = 0 then 10
  else if xdr = 1 ∧ d = .o then 5
  else if xdr = 1 then 13
  else if d = .o then 4
  else 12

/-- The `io_args` list built for one bit of the port in `_get_io_buffer`'s
loop.  iN/i0N/i1N/oN/o0N/o1N are the names of pin_i, pin_i0, ... as returned
by get_ixor / get_oxor; the `_ff` suffix denotes the retiming registers. -/
def ioArgs (pin : PinSpec) (portName : String) (attrs : List (String × IOVal))
    (isGlobal : Bool) (iN i0N i1N oN o0N o1N : String) (bit : Nat) : List IOArg :=
  [⟨"io", "PACKAGE_PIN", .sig portName (some bit)⟩]
  ++ attrs.map (fun kv => ⟨"p", kv.1, kv.2⟩)
  ++ [⟨"p", "PIN_TYPE", .num (oTypeCode pin.dir pin.xdr * 4 + iTypeCode pin.dir pin.xdr)⟩]
  ++ (if pin.hasIClk then [⟨"i", "INPUT_CLK", .sig "i_clk" none⟩] else [])
  ++ (if pin.hasOClk then [⟨"i", "OUTPUT_CLK", .sig "o_clk" none⟩] else [])
  ++ (if pin.dir.hasI then
        if pin.xdr = 0 ∧ isGlobal then [⟨"o", "GLOBAL_BUFFER_OUTPUT", .sig "i" (some bit)⟩]
        else if pin.xdr < 2 then [⟨"o", "D_IN_0", .sig iN (some bit)⟩]
        else [⟨"o", "D_IN_0", .sig (i0N ++ "_ff") none⟩,
              ⟨"o", "D_IN_1", .sig (i1N ++ "_ff") none⟩]
      else [])
  ++ (if pin.dir.hasO then
        if pin.xdr < 2 then [⟨"i", "D_OUT_0", .sig oN (some bit)⟩]
        else [⟨"i", "D_OUT_0", .sig o0N (some bit)⟩,
              ⟨"i", "D_OUT_1", .sig (o1N ++ "_ff") none⟩]
      else [])
  ++ (if pin.dir = .oe ∨ pin.dir = .io then [⟨"i", "OUTPUT_ENABLE", .sig "oe" none⟩] else [])

/-- Shallow embedding of `LatticeICE40Platform._get_io_buffer`.  The Python
assertion `not (is_global_input and i_invert)` becomes the error case; the
emitted submodules are collected in source order: explicit-inversion LUTs,
then the xdr==2 retiming registers, then one SB_IO/SB_GB_IO per port bit. -/
def get_io_buffer (pin : PinSpec) (portName : String) (portWidth : Nat)
    (attrs : List (String × IOVal)) (i_invert o_invert : Option Bool) :
    Except Unit (List Cell) :=
  let isGlobal := globalTruthy attrs
  let attrs' := attrs.filter (fun kv => kv.1 != "GLOBAL")
  if isGlobal && truthyOpt i_invert then .error ()
  else
    let iN := ixorName "i" i_invert
    let i0N := ixorName "i0" i_invert
    let i1N := ixorName "i1" i_invert
    let oN := oxorName "o" o_invert
    let o0N := oxorName "o0" o_invert
    let o1N := oxorName "o1" o_invert
    let xorCells :=
      (if pin.dir.hasI then
         if pin.xdr < 2 then ixorCells "i" pin.width i_invert
         else ixorCells "i0" pin.width i_invert ++ ixorCells "i1" pin.width i_invert
       else [])
      ++ (if pin.dir.hasO then
         if pin.xdr < 2 then oxorCells "o" pin.width o_invert
         else oxorCells "o0" pin.width o_invert ++ oxorCells "o1" pin.width o_invert
       else [])
    let dffCells :=
      (if pin.dir.hasI && (pin.xdr == 2) then
         [.dff "i_clk" pin.width (i0N ++ "_ff") i0N,
          .dff "i_clk" pin.width (i1N ++ "_ff") i1N]
       else [])
      ++ (if pin.dir.hasO && (pin.xdr == 2) then
         [.dff "o_clk" pin.width o1N (o1N ++ "_ff")]
       else [])
    .ok (xorCells ++ dffCells
      ++ (List.range portWidth).map
          (fun bit => .sbCell isGlobal (ioArgs pin portName attrs' isGlobal iN i0N i1N oN o0N o1N bit)))

/-- Modelled from the spec: the vendor-base `_check_feature` (not among the
provided sources) rejects an unsupported direction/data-rate combination; all
six iCE40 operations pass valid_xdrs=(0, 1, 2). -/
def check_feature (pin : PinSpec) : Except Unit Unit :=
  if pin.xdr ≤ 2 then .ok () else .error ()

/-- `True if invert else None`, the invert argument every single-ended caller
passes down. -/
def invOpt (invert : Bool) : Option Bool := if invert then some true else none

/-- Shallow embedding of `LatticeICE40Platform.get_input`. -/
def get_input (pin : PinSpec) (portName : String) (portWidth : Nat)
    (attrs : List (String × IOVal)) (invert : Bool) : Except Unit (List Cell) :=
  match check_feature pin with
  | .error e => .error e
  | .ok _ => get_io_buffer pin portName portWidth attrs (invOpt invert) none

/-- Shallow embedding of `LatticeICE40Platform.get_output`. -/
def get_output (pin : PinSpec) (portName : String) (portWidth : Nat)
    (attrs : List (String × IOVal)) (invert : Bool) : Except Unit (List Cell) :=
  match check_feature pin with
  | .error e => .error e
  | .ok _ => get_io_buffer pin portName portWidth attrs none (invOpt invert)

/-- Shallow embedding of `LatticeICE40Platform.get_tristate`. -/
def get_tristate (pin : PinSpec) (portName : String) (portWidth : Nat)
    (attrs : List (String × IOVal)) (invert : Bool) : Except Unit (List Cell) :=
  match check_feature pin with
  | .error e => .error e
  | .ok _ => get_io_buffer pin portName portWidth attrs none (invOpt invert)

/-- Shallow embedding of `LatticeICE40Platform.get_input_output`. -/
def get_input_output (pin : PinSpec) (portName : String) (portWidth : Nat)
    (attrs : List (String × IOVal)) (invert : Bool) : Except Unit (List Cell) :=
  match check_feature pin with
  | .error e => .error e
  | .ok _ => get_io_buffer pin portName portWidth attrs (invOpt invert) (invOpt invert)

/-- Shallow embedding of `LatticeICE40Platform.get_diff_input`: only the p
port receives an I/O buffer (see should_skip_port_component); the n port is
unused. -/
def get_diff_input (pin : PinSpec) (pName : String) (pWidth : Nat)
    (nName : String) (nWidth : Nat)
    (attrs : List (String × IOVal)) (invert : Bool) : Except Unit (List Cell) :=
  match check_feature pin with
  | .error e => .error e
  | .ok _ => get_io_buffer pin pName pWidth attrs (invOpt invert) none

/-- Shallow embedding of `LatticeICE40Platform.get_diff_output`: both legs get
a buffer, the p leg with o_invert=invert, the n leg with o_invert=not invert
(both always non-None, so a LUT passthrough is always instantiated for delay
symmetry). -/
def get_diff_output (pin : PinSpec) (pName : String) (pWidth : Nat)
    (nName : String) (nWidth : Nat)
    (attrs : List (String × IOVal)) (invert : Bool) : Except Unit (List Cell) :=
  match check_feature pin with
  | .error e => .error e
  | .ok _ =>
    match get_io_buffer pin pName pWidth attrs none (some invert) with
    | .error e => .error e
    | .ok cs1 =>
      match get_io_buffer pin nName nWidth attrs none (some (!invert)) with
      | .error e => .error e
      | .ok cs2 => .ok (cs1 ++ cs2)

/-- Shallow embedding of `LatticeICE40Platform.should_skip_port_component`. -/
def should_skip_port_component (portName : String) (attrs : List (String × IOVal))
    (component : String) : Bool :=
  if (flookup "IO_STANDARD" attrs).getD (.sval "SB_LVCMOS") == .sval "SB_LVDS_INPUT"
      && component == "n"
  then true
  else false

/-- Value bound to a key among a cell's arguments (first match). -/
def argVal (key : String) : List IOArg → Option IOVal
| [] => none
| a :: rest => if a.key = key then some a.val else argVal key rest

/-- Number of SB_LUT4 cells produced by a binder operation (0 on failure). -/
def lutCount : Except Unit (List Cell) → Nat
| .ok cs => cs.countP (fun c => Cell.isLut c)
| .error _ => 0

/-- Number of SB_IO/SB_GB_IO cells produced by a binder operation. -/
def primCount : Except Unit (List Cell) → Nat
| .ok cs => cs.countP (fun c => Cell.isPrim c)
| .error _ => 0

/-- The cells of a successful binder invocation. -/
def cellsOf : Except Unit (List Cell) → List Cell
| .ok cs => cs
| .error _ => []

end ICE40

namespace BuildRes

/-- Modelled from the spec: the direction tag of an electrical group, one of
"i", "o", "io", "oe" (nmigen/build/res.py and dsl.py are not among the
provided sources; spec section 3). -/
inductive PDir
| i
| o
| io
| oe
deriving DecidableEq

/-- Modelled from the spec: a requested direction override: a concrete
direction or "-" (raw). -/
inductive DirOv
| dir (d : PDir)
| raw
deriving DecidableEq

/-- Modelled from the spec: the effective direction after override
resolution. -/
inductive EffDir
| d (x : PDir)
| raw
deriving DecidableEq

/-- Modelled from the spec: a connector slot maps a local label to a literal
physical pin name or to a slot of another connector (spec section 3). -/
inductive ConnTok
| lit (pin : String)
| ref (label : String) (cname : String) (cnum : Nat)
deriving DecidableEq

/-- Modelled from the spec: a Connector declaration, an ordered mapping from
local labels to pin tokens. -/
structure Connector where
  name : String
  number : Nat
  mapping : List (String × ConnTok)
deriving DecidableEq

/-- Modelled from the spec: the physical shape of an electrical group, a
single-ended pin set or a differential pin-pair set. -/
inductive Phys
| single (pins : List String)
| diff (p n : List String)
deriving DecidableEq

/-- Modelled from the spec: one leaf electrical group: shape, optional
connector the tokens are labels on, direction tag, declared-inversion flag,
attribute mapping, and optional Clock annotation (Hz). -/
structure ElecGroup where
  phys : Phys
  conn : Option (String × Nat)
  dir : PDir
  invert : Bool
  attrs : List (String × String)
  clock : Option Nat
deriving DecidableEq

mutual
/-- Modelled from the spec: a Resource body is a leaf electrical group or a
list of named Subsignals, each recursively a Resource body (spec section 3). -/
inductive ResBody where
| leaf : ElecGroup → ResBody
| node : Subsigs → ResBody
/-- Modelled from the spec: the ordered named subsignals of an internal
node. -/
inductive Subsigs where
| nil : Subsigs
| cons : String → ResBody → Subsigs → Subsigs
end

/-- Modelled from the spec: a direction / data-rate override argument: absent,
a scalar (for leaves), or a name-keyed mapping (for subsignal trees). -/
inductive OvArg (α : Type)
| none
| scalar (a : α)
| map (m : List (String × OvArg α))

def OvArg.isMap {α : Type} : OvArg α → Bool
| .map _ => true
| _ => false

def OvArg.isScalar {α : Type} : OvArg α → Bool
| .scalar _ => true
| _ => false

/-- Modelled from the spec: the override supplied to a named subsignal by a
mapping-shaped override (absent names default to no override). -/
def OvArg.forSub {α : Type} (nm : String) : OvArg α → OvArg α
| .map m => (flookup nm m).getD .none
| _ => .none

/-- Modelled from the spec: a resolved Port: the derived name, bit width, and
the ordered physical pin tokens it is bound to. -/
structure Port where
  name : String
  nbits : Nat
  pins : List String
deriving DecidableEq

/-- Modelled from the spec: the errors of the resolution core (spec section
7); each carries the context the spec requires. -/
inductive ResError
| doesNotExist (name : String) (number : Nat)
| alreadyRequested (name : String) (number : Nat)
| allocConflict (newComp : String) (priorComp : String) (pin : String)
| unresolvedPin (comp : String)
| dirShape
| xdrShape
| dirDisallowed (declared : PDir) (requested : PDir)
| xdrInvalid (x : Int)
| clockNotPort
| freqNotNumeric
| clockExists (portName : String) (existing : Nat)
deriving DecidableEq

/-- Modelled from the spec: the Constraint Ledger: allocation record (pin
token to claiming component), ports in creation order, the single-ended and
differential pin records handed to the binder, and clock constraints. -/
structure Ledger where
  allocation : List (String × String)
  ports : List Port
  sePins : List (Port × List (String × String) × Bool)
  diffPins : List (Port × Port × List (String × String) × Bool)
  clocks : List (String × Nat)
deriving DecidableEq

/-- Modelled from the spec: the session state: the Resource and Connector
databases, the identities already requested, and the Ledger. -/
structure Session where
  resources : List ((String × Nat) × ResBody)
  connectors : List Connector
  requested : List (String × Nat)
  ledger : Ledger

/-- Modelled from the spec: Resource Database lookup by (name, number). -/
def Session.lookup (st : Session) (name : String) (number : Nat) : Option ResBody :=
  flookup (name, number) st.resources

/-- Modelled from the spec: find a connector by (name, number). -/
def findConn (cs : List Connector) (n : String) (i : Nat) : Option Connector :=
  cs.find? (fun c => c.name == n && c.number == i)

/-- Modelled from the spec: follow a connector-indirection chain from a label
until a literal pin name is reached; bounded recursion depth guards against
cycles (spec section 9). -/
def resolveChain (cs : List Connector) : Nat → String → Nat → String → Option String
| 0, _, _, _ => none
| fuel + 1, cn, ci, label =>
  match findConn cs cn ci with
  | .none => none
  | .some c =>
    match flookup label c.mapping with
    | .none => none
    | .some (.lit p) => some p
    | .some (.ref l' cn' ci') => resolveChain cs fuel cn' ci' l'

/-- Modelled from the spec: resolve one declared token: a literal when the
group references no connector, otherwise a label chased through the
connector chain (with fuel one more than the number of connectors, enough
for any acyclic chain). -/
def resolvePinTok (cs : List Connector) : Option (String × Nat) → String → Option String
| .none, tok => some tok
| .some (cn, ci), label => resolveChain cs (cs.length + 1) cn ci label

/-- Option-valued mapM with explicit equations. -/
def optMapM {α β : Type} (f : α → Option β) : List α → Option (List β)
| [] => some []
| x :: xs =>
  match f x with
  | .none => none
  | .some y =>
    match optMapM f xs with
    | .none => none
    | .some ys => some (y :: ys)

/-- Modelled from the spec: resolve all declared tokens of a group. -/
def resolvePins (cs : List Connector) (conn : Option (String × Nat)) (toks : List String) :
    Option (List String) :=
  optMapM (resolvePinTok cs conn) toks

/-- Modelled from the spec: claim physical pin tokens one at a time; a token
already present in the allocation record fails naming the new component, the
prior claimant and the shared pin; otherwise it is recorded (spec section
4.2 step 2). -/
def claimPins (alloc : List (String × String)) (comp : String) :
    List String → Except ResError (List (String × String))
| [] => .ok alloc
| p :: ps =>
  match flookup p alloc with
  | .some prior => .error (.allocConflict comp prior p)
  | .none => claimPins (alloc ++ [(p, comp)]) comp ps

/-- Modelled from the spec: direction resolution on a leaf: no override keeps
the declared direction; an override is accepted only when it equals the
declaration, or the declaration is io, or the override is raw (spec section
4.2 step 3); a mapping against a leaf is a shape error. -/
def resolveDir (decl : PDir) : OvArg DirOv → Except ResError EffDir
| .none => .ok (.d decl)
| .scalar .raw => .ok .raw
| .scalar (.dir x) =>
  if x = decl ∨ decl = .io then .ok (.d x) else .error (.dirDisallowed decl x)
| .map _ => .error .dirShape

/-- Modelled from the spec: data-rate resolution on a leaf: defaults to 0,
must be a non-negative integer; a mapping against a leaf is a shape error
(spec section 4.2 step 4). -/
def resolveXdr : OvArg Int → Except ResError Nat
| .none => .ok 0
| .scalar x => if x < 0 then .error (.xdrInvalid x) else .ok x.toNat
| .map _ => .error .xdrShape

/-- Modelled from the spec: a Clock annotation on a leaf becomes an implicit
clock constraint on its Port, subject to the one-constraint-per-port rule
(spec section 4.2 step 6). -/
def addClockAnn (led : Ledger) (port : Port) : Option Nat → Except ResError Ledger
| .none => .ok led
| .some f =>
  match flookup port.name led.clocks with
  | .some f0 => .error (.clockExists port.name f0)
  | .none => .ok { led with clocks := led.clocks ++ [(port.name, f)] }

/-- Modelled from the spec: resolve one leaf electrical group (spec section
4.2 steps 2-7, in the spec's order): reject mapping-shaped overrides, resolve
the declared tokens through connectors, claim them in the allocation record,
resolve direction and data rate, construct the Port(s) (one `__io` port for a
single-ended group, a `__p`/`__n` pair for a differential group, bound to the
resolved tokens in order, with the declared inversion surfaced only as the
boolean flag of the binder record), and apply any Clock annotation. -/
def resolveLeaf (cs : List Connector) (led : Ledger) (comp : String) (g : ElecGroup)
    (dOv : OvArg DirOv) (xOv : OvArg Int) : Except ResError Ledger :=
  if dOv.isMap then .error .dirShape
  else if xOv.isMap then .error .xdrShape
  else
    match g.phys with
    | .single pins =>
      match resolvePins cs g.conn pins with
      | .none => .error (.unresolvedPin comp)
      | .some ps =>
        match claimPins led.allocation comp ps with
        | .error e => .error e
        | .ok alloc' =>
          match resolveDir g.dir dOv with
          | .error e => .error e
          | .ok ed =>
            match resolveXdr xOv with
            | .error e => .error e
            | .ok _ =>
              let port : Port := ⟨comp ++ "__io", ps.length, ps⟩
              let led' : Ledger :=
                { led with
                  allocation := alloc'
                  ports := led.ports ++ [port]
                  sePins := led.sePins ++
                    (if ed = EffDir.raw then [] else [(port, g.attrs, g.invert)]) }
              addClockAnn led' port g.clock
    | .diff ppins npins =>
      match resolvePins cs g.conn ppins, resolvePins cs g.conn npins with
      | .none, _ => .error (.unresolvedPin comp)
      | .some _, .none => .error (.unresolvedPin comp)
      | .some ps, .some ns =>
        match claimPins led.allocation comp (ps ++ ns) with
        | .error e => .error e
        | .ok alloc' =>
          match resolveDir g.dir dOv with
          | .error e => .error e
          | .ok ed =>
            match resolveXdr xOv with
            | .error e => .error e
            | .ok _ =>
              let pport : Port := ⟨comp ++ "__p", ps.length, ps⟩
              let nport : Port := ⟨comp ++ "__n", ns.length, ns⟩
              let led' : Ledger :=
                { led with
                  allocation := alloc'
                  ports := led.ports ++ [pport, nport]
                  diffPins := led.diffPins ++
                    (if ed = EffDir.raw then [] else [(pport, nport, g.attrs, g.invert)]) }
              addClockAnn led' pport g.clock

mutual
/-- Modelled from the spec: recursive body resolution (spec section 4.2):
leaves resolve directly; a subsignal tree rejects scalar overrides and
resolves each named child with the component path extended by `__name`. -/
def resolveBody (cs : List Connector) (led : Ledger) (comp : String) :
    ResBody → OvArg DirOv → OvArg Int → Except ResError Ledger
| .leaf g, dOv, xOv => resolveLeaf cs led comp g dOv xOv
| .node subs, dOv, xOv =>
  if dOv.isScalar then .error .dirShape
  else if xOv.isScalar then .error .xdrShape
  else resolveSubs cs led comp subs dOv xOv
/-- Modelled from the spec: resolve the subsignals in declaration order,
threading the ledger. -/
def resolveSubs (cs : List Connector) (led : Ledger) (comp : String) :
    Subsigs → OvArg DirOv → OvArg Int → Except ResError Ledger
| .nil, _, _ => .ok led
| .cons nm b rest, dOv, xOv =>
  match resolveBody cs led (comp ++ "__" ++ nm) b (dOv.forSub nm) (xOv.forSub nm) with
  | .error e => .error e
  | .ok led' => resolveSubs cs led' comp rest dOv xOv
end

/-- Modelled from the spec: one resource request (spec section 4.2 step 1 and
the session bookkeeping): look the identity up (failing if absent), fail if
it was already requested this session, then resolve the body against the
ledger and record the identity as requested. -/
def request (st : Session) (name : String) (number : Nat)
    (dOv : OvArg DirOv) (xOv : OvArg Int) : Except ResError Session :=
  match st.lookup name number with
  | .none => .error (.doesNotExist name number)
  | .some body =>
    if (name, number) ∈ st.requested then .error (.alreadyRequested name number)
    else
      match resolveBody st.connectors st.ledger (name ++ "_" ++ toString number) body dOv xOv with
      | .error e => .error e
      | .ok led' =>
        .ok { st with requested := st.requested ++ [(name, number)], ledger := led' }

/-- Modelled from the spec: the frequency argument of add_clock_constraint,
either a number or some non-numeric Python value that must be rejected. -/
inductive FreqArg
| num (f : Nat)
| nonNum
deriving DecidableEq

/-- Modelled from the spec: `add_clock_constraint(signal_or_pin, frequency)`
(spec section 4.3, conditions in the spec's order): the target must resolve
to a Port produced by a prior request; the frequency must be numeric; a
second constraint on the same Port fails naming the existing frequency;
otherwise the constraint is recorded. The target is identified by the name
of the Port it designates. -/
def add_clock_constraint (st : Session) (target : String) (freq : FreqArg) :
    Except ResError Session :=
  if st.ledger.ports.all (fun p => p.name != target) then .error .clockNotPort
  else
    match freq with
    | .nonNum => .error .freqNotNumeric
    | .num f =>
      match flookup target st.ledger.clocks with
      | .some f0 => .error (.clockExists target f0)
      | .none =>
        .ok { st with ledger :=
          { st.ledger with clocks := st.ledger.clocks ++ [(target, f)] } }

/-- Modelled from the spec: `get_clock_constraint(signal_or_pin)` returns the
recorded frequency or signals absence. -/
def get_clock_constraint (st : Session) (target : String) : Option Nat :=
  flookup target st.ledger.clocks

/-- A one-resource session holding a single-pin leaf with declared direction
d, used to examine the direction-override lattice. -/
def leafSession (d : PDir) : Session :=
  { resources := [(("r", 0), .leaf ⟨.single ["A0"], none, d, false, [], none⟩)]
    connectors := []
    requested := []
    ledger := ⟨[], [], [], [], []⟩ }

/-- A session whose allocation record already claims pin H1 for component
clk100_0, with a clk20 resource that also wants H1. -/
def conflictSession : Session :=
  { resources := [(("clk20", 0), .leaf ⟨.single ["H1"], none, .i, false, [], none⟩)]
    connectors := []
    requested := []
    ledger := ⟨[("H1", "clk100_0")], [], [], [], []⟩ }

/-- A session with one produced port already carrying a clock constraint. -/
def clockSession : Session :=
  { resources := []
    connectors := []
    requested := [("clk", 0)]
    ledger := ⟨[("K1", "clk_0")], [⟨"clk_0__io", 1, ["K1"]⟩], [], [], [("clk_0__io", 100)]⟩ }

/-- The specification-side relation: label on connector (cn, ci) reaches
literal pin p by looking the label up and following any chain of connector
indirections until a literal pin name is reached. -/
inductive ChainsTo (cs : List Connector) : String → Nat → String → String → Prop
| lit {cn : String} {ci : Nat} {c : Connector} {label p : String} :
    findConn cs cn ci = some c → flookup label c.mapping = some (.lit p) →
    ChainsTo cs cn ci label p
| step {cn : String} {ci : Nat} {c : Connector} {label l' cn' : String} {ci' : Nat}
    {p : String} :
    findConn cs cn ci = some c → flookup label c.mapping = some (.ref l' cn' ci') →
    ChainsTo cs cn' ci' l' p → ChainsTo cs cn ci label p

/-- A one-resource session whose leaf tokens are labels on connector cc. -/
def connSession (cs : List Connector) (cc : String × Nat) (labels : List String)
    (d : PDir) : Session :=
  { resources := [(("r", 0), .leaf ⟨.single labels, some cc, d, false, [], none⟩)]
    connectors := cs
    requested := []
    ledger := ⟨[], [], [], [], []⟩ }

/-- A two-level connector chain: pmod slot 1 refers to hdr slot 10, which is
the literal pin B0. -/
def chainConnectors : List Connector :=
  [⟨"pmod", 0, [("1", .ref "10" "hdr" 0)]⟩, ⟨"hdr", 0, [("10", .lit "B0")]⟩]

/-- The session state after requesting the chained resource. -/
def chainAfter : Session :=
  { resources := [(("r", 0), .leaf ⟨.single ["1"], some ("pmod", 0), .i, false, [], none⟩)]
    connectors := chainConnectors
    requested := [("r", 0)]
    ledger := ⟨[("B0", "r_0")], [⟨"r_0__io", 1, ["B0"]⟩],
               [(⟨"r_0__io", 1, ["B0"]⟩, [], false)], [], []⟩ }

/-- A one-resource session holding the given leaf group. -/
def leafGroupSession (g : ElecGroup) : Session :=
  { resources := [(("r", 0), .leaf g)]
    connectors := []
    requested := []
    ledger := ⟨[], [], [], [], []⟩ }

/-- A session whose single resource has one subsignal s wrapping the given
leaf group. -/
def subSession (g : ElecGroup) : Session :=
  { resources := [(("r", 0), .node (.cons "s" (.leaf g) .nil))]
    connectors := []
    requested := []
    ledger := ⟨[], [], [], [], []⟩ }

end BuildRes

/-- Membership of a key in an association list implies the lookup succeeds. -/
theorem flookup_isSome_of_mem_keys {κ β : Type} [DecidableEq κ] {l : List (κ × β)} {k : κ}
    (h : k ∈ l.map Prod.fst) : (flookup k l).isSome := by
  induction l with
  | nil => simp at h
  | cons kv rest ih =>
    by_cases hk : kv.1 = k
    · simp [flookup, hk]
    · simp [flookup, hk]
      apply ih
      simp at h
      rcases h with h | h
      · exact absurd h.symm hk
      · simpa using h

/-- A key whose lookup fails is not among the keys. -/
theorem not_mem_keys_of_flookup_none {κ β : Type} [DecidableEq κ] {l : List (κ × β)} {k : κ}
    (h : flookup k l = none) : k ∉ l.map Prod.fst := by
  intro hmem
  have := flookup_isSome_of_mem_keys hmem
  rw [h] at this
  simp at this

/-- Lookup in an appended association list when the key is absent on the left. -/
theorem flookup_append_of_none {κ β : Type} [DecidableEq κ] {l₁ : List (κ × β)}
    (l₂ : List (κ × β)) {k : κ} (h : flookup k l₁ = none) :
    flookup k (l₁ ++ l₂) = flookup k l₂ := by
  induction l₁ with
  | nil => simp
  | cons kv rest ih =>
    by_cases hk : kv.1 = k
    · simp [flookup, hk] at h
    · simp [flookup, hk] at h ⊢
      exact ih h

/-- Lookup in an appended association list when the key is found on the left. -/
theorem flookup_append_of_some {κ β : Type} [DecidableEq κ] {l₁ : List (κ × β)}
    (l₂ : List (κ × β)) {k : κ} {v : β} (h : flookup k l₁ = some v) :
    flookup k (l₁ ++ l₂) = some v := by
  induction l₁ with
  | nil => simp [flookup] at h
  | cons kv rest ih =>
    by_cases hk : kv.1 = k
    · simp [flookup, hk] at h ⊢
      exact h
    · simp [flookup, hk] at h ⊢
      exact ih h

/-- Appending a fresh key keeps the key list duplicate-free. -/
theorem keys_nodup_concat {κ β : Type} [DecidableEq κ] {l : List (κ × β)} {k : κ} (v : β)
    (hn : (l.map Prod.fst).Nodup) (hf : flookup k l = none) :
    ((l ++ [(k, v)]).map Prod.fst).Nodup := by
  have hk := not_mem_keys_of_flookup_none hf
  simp [List.nodup_append, hn]
  intro x hx
  exact hk (List.mem_map_of_mem Prod.fst hx)

namespace ICE40

/-- Explicit-inversion cells are LUTs, never flip-flops or I/O cells. -/
theorem mem_ixorCells_isLut {c : Cell} {y : String} {w : Nat} {o : Option Bool}
    (h : c ∈ ixorCells y w o) : Cell.isLut c = true := by
  cases o with
  | none => simp [ixorCells] at h
  | some b =>
    simp [ixorCells] at h
    obtain ⟨bit, _, rfl⟩ := h
    rfl

/-- Explicit-inversion cells are LUTs, never flip-flops or I/O cells. -/
theorem mem_oxorCells_isLut {c : Cell} {a : String} {w : Nat} {o : Option Bool}
    (h : c ∈ oxorCells a w o) : Cell.isLut c = true := by
  cases o with
  | none => simp [oxorCells] at h
  | some b =>
    simp [oxorCells] at h
    obtain ⟨bit, _, rfl⟩ := h
    rfl

theorem filter_isDff_ixorCells (y : String) (w : Nat) (o : Option Bool) :
    (ixorCells y w o).filter Cell.isDff = [] := by
  rw [List.filter_eq_nil_iff]
  intro c hc
  have := mem_ixorCells_isLut hc
  cases c <;> simp_all [Cell.isLut, Cell.isDff]

theorem filter_isDff_oxorCells (a : String) (w : Nat) (o : Option Bool) :
    (oxorCells a w o).filter Cell.isDff = [] := by
  rw [List.filter_eq_nil_iff]
  intro c hc
  have := mem_oxorCells_isLut hc
  cases c <;> simp_all [Cell.isLut, Cell.isDff]

theorem filter_isDff_map_sb (l : List Nat) (g : Bool) (F : Nat → List IOArg) :
    (l.map (fun bit => Cell.sbCell g (F bit))).filter Cell.isDff = [] := by
  rw [List.filter_eq_nil_iff]
  intro c hc
  simp at hc
  obtain ⟨bit, _, rfl⟩ := hc
  simp [Cell.isDff]

/-- Membership in a conditional list comes from one of the branches. -/
theorem mem_ite_elim {α : Type} {P : Prop} [Decidable P] {A B : List α} {c : α}
    (h : c ∈ (if P then A else B)) : c ∈ A ∨ c ∈ B := by
  split at h
  · exact Or.inl h
  · exact Or.inr h

/-- In any successful `_get_io_buffer` run, every emitted SB_IO / SB_GB_IO
cell has its PACKAGE_PIN bound to a bit of the port the call received. -/
theorem get_io_buffer_package_pin (pin : PinSpec) (pn : String) (pw : Nat)
    (attrs : List (String × IOVal)) (ii oi : Option Bool) (cells : List Cell)
    (h : get_io_buffer pin pn pw attrs ii oi = .ok cells) :
    ∀ c ∈ cells, ∀ g args, c = Cell.sbCell g args →
      ∃ bit, bit < pw ∧ argVal "PACKAGE_PIN" args = some (.sig pn (some bit)) := by
  simp only [get_io_buffer] at h
  split at h
  · exact absurd h (by simp)
  · rw [Except.ok.injEq] at h
    subst h
    intro c hc g args hceq
    subst hceq
    rcases List.mem_append.mp hc with h1 | h2
    · exfalso
      rcases List.mem_append.mp h1 with h3 | h4
      · rcases List.mem_append.mp h3 with h5 | h5
        · rcases mem_ite_elim h5 with h6 | h6
          · rcases mem_ite_elim h6 with h7 | h7
            · have := mem_ixorCells_isLut h7
              simp [Cell.isLut] at this
            · rcases List.mem_append.mp h7 with h8 | h8 <;>
              · have := mem_ixorCells_isLut h8
                simp [Cell.isLut] at this
          · simp at h6
        · rcases mem_ite_elim h5 with h6 | h6
          · rcases mem_ite_elim h6 with h7 | h7
            · have := mem_oxorCells_isLut h7
              simp [Cell.isLut] at this
            · rcases List.mem_append.mp h7 with h8 | h8 <;>
              · have := mem_oxorCells_isLut h8
                simp [Cell.isLut] at this
          · simp at h6
      · rcases List.mem_append.mp h4 with h5 | h5 <;> rcases mem_ite_elim h5 with h6 | h6 <;>
          simp at h6
    · obtain ⟨bit, hbit, hcell⟩ := List.mem_map.mp h2
      injection hcell with hg hargs
      subst hargs
      exact ⟨bit, List.mem_range.mp hbit, rfl⟩

/-- In a `_get_io_buffer` run with neither i_invert nor o_invert requested, no
SB_LUT4 appears among the emitted cells. -/
theorem get_io_buffer_no_invert_lutfree (pin : PinSpec) (pn : String) (pw : Nat)
    (attrs : List (String × IOVal)) (cells : List Cell)
    (h : get_io_buffer pin pn pw attrs none none = .ok cells) :
    cells.countP (fun c => Cell.isLut c) = 0 := by
  simp only [get_io_buffer, truthyOpt, Bool.and_false, Bool.false_eq_true, not_false_iff,
    ite_false, ixorCells, oxorCells, List.append_nil, ite_self] at h
  rw [Except.ok.injEq] at h
  subst h
  rw [List.countP_eq_zero]
  intro c hc
  rcases List.mem_append.mp hc with h1 | h2
  · rw [List.nil_append] at h1
    rcases List.mem_append.mp h1 with h5 | h5 <;> rcases mem_ite_elim h5 with h6 | h6 <;>
        simp at h6 <;> rcases h6 with rfl | rfl <;> simp [Cell.isLut]
  · obtain ⟨bit, _, rfl⟩ := List.mem_map.mp h2
    simp [Cell.isLut]

/-- C7: in the iCE40 binder, for every pin with xdr == 2, each input
edge-sample (i0 and i1) passes through exactly one extra flip-flop clocked by
i_clk between the I/O cell's D_IN_0/D_IN_1 outputs and the design fabric,
while on the output side only the negative-edge sample o1 passes through one
extra flip-flop before D_OUT_1 and the positive-edge sample o0 is connected
to D_OUT_0 directly; this holds for every direction with the respective
capability.  The flip-flops of the emitted module are exactly the listed
retiming registers (D_IN_x drives the `_ff` signal, whose single flip-flop
drives the fabric-side i0/i1; the fabric-side o1 drives the single flip-flop
feeding D_OUT_1; D_OUT_0 is the fabric-side o0 with no flip-flop). -/
theorem C7_xdr2_retiming_asymmetry (d : PinDir) (ii oi : Option Bool) (w pw : Nat)
    (pn : String) (cells : List Cell)
    (h : get_io_buffer ⟨d, 2, w⟩ pn pw [] ii oi = .ok cells) :
    (cells.filter Cell.isDff =
      (if d.hasI then
        [.dff "i_clk" w (ixorName "i0" ii ++ "_ff") (ixorName "i0" ii),
         .dff "i_clk" w (ixorName "i1" ii ++ "_ff") (ixorName "i1" ii)] else [])
      ++ (if d.hasO then
        [.dff "o_clk" w (oxorName "o1" oi) (oxorName "o1" oi ++ "_ff")] else []))
    ∧ (∀ c ∈ cells, ∀ g args, c = Cell.sbCell g args →
        (d.hasI = true →
          argVal "D_IN_0" args = some (.sig (ixorName "i0" ii ++ "_ff") none) ∧
          argVal "D_IN_1" args = some (.sig (ixorName "i1" ii ++ "_ff") none)) ∧
        (d.hasO = true →
          (∃ bit, bit < pw ∧ argVal "D_OUT_0" args = some (.sig (oxorName "o0" oi) (some bit))) ∧
          argVal "D_OUT_1" args = some (.sig (oxorName "o1" oi ++ "_ff") none))) := by
  simp only [get_io_buffer, globalTruthy, flookup, truthyOpt, Bool.false_and, if_neg,
    Bool.false_eq_true, not_false_iff, ite_false, List.filter_nil] at h
  rw [Except.ok.injEq] at h
  subst h
  constructor
  · cases d <;>
      simp [PinDir.hasI, PinDir.hasO, List.filter_append, filter_isDff_ixorCells,
        filter_isDff_oxorCells, filter_isDff_map_sb, List.filter, Cell.isDff]
  · intro c hc g args hceq
    subst hceq
    cases d with
    | i =>
      simp only [PinDir.hasI, PinDir.hasO, ite_true, ite_false, Bool.true_and, Bool.false_and,
        Bool.and_self, if_neg, List.append_nil, List.nil_append] at hc ⊢
      norm_num at hc
      rcases hc with hx | hx | hx | hx | ⟨bit, hbit, hg, hargs⟩
      · have hl := mem_ixorCells_isLut hx
        simp [Cell.isLut] at hl
      · have hl := mem_ixorCells_isLut hx
        simp [Cell.isLut] at hl
      · exact Cell.noConfusion hx
      · exact Cell.noConfusion hx
      · subst hargs
        exact ⟨fun _ => ⟨rfl, rfl⟩, fun hfo => absurd hfo (by decide)⟩
    | o =>
      simp only [PinDir.hasI, PinDir.hasO, ite_true, ite_false, Bool.true_and, Bool.false_and,
        Bool.and_self, if_neg, List.append_nil, List.nil_append] at hc ⊢
      norm_num at hc
      rcases hc with hx | hx | hx | ⟨bit, hbit, hg, hargs⟩
      · have hl := mem_oxorCells_isLut hx
        simp [Cell.isLut] at hl
      · have hl := mem_oxorCells_isLut hx
        simp [Cell.isLut] at hl
      · exact Cell.noConfusion hx
      · subst hargs
        exact ⟨fun hfo => absurd hfo (by decide), fun _ => ⟨⟨bit, hbit, rfl⟩, rfl⟩⟩
    | oe =>
      simp only [PinDir.hasI, PinDir.hasO, ite_true, ite_false, Bool.true_and, Bool.false_and,
        Bool.and_self, if_neg, List.append_nil, List.nil_append] at hc ⊢
      norm_num at hc
      rcases hc with hx | hx | hx | ⟨bit, hbit, hg, hargs⟩
      · have hl := mem_oxorCells_isLut hx
        simp [Cell.isLut] at hl
      · have hl := mem_oxorCells_isLut hx
        simp [Cell.isLut] at hl
      · exact Cell.noConfusion hx
      · subst hargs
        exact ⟨fun hfo => absurd hfo (by decide), fun _ => ⟨⟨bit, hbit, rfl⟩, rfl⟩⟩
    | io =>
      simp only [PinDir.hasI, PinDir.hasO, ite_true, ite_false, Bool.true_and, Bool.false_and,
        Bool.and_self, if_neg, List.append_nil, List.nil_append] at hc ⊢
      norm_num at hc
      rcases hc with hx | hx | hx | hx | hx | hx | hx | ⟨bit, hbit, hg, hargs⟩
      · have hl := mem_ixorCells_isLut hx
        simp [Cell.isLut] at hl
      · have hl := mem_ixorCells_isLut hx
        simp [Cell.isLut] at hl
      · have hl := mem_oxorCells_isLut hx
        simp [Cell.isLut] at hl
      · have hl := mem_oxorCells_isLut hx
        simp [Cell.isLut] at hl
      · exact Cell.noConfusion hx
      · exact Cell.noConfusion hx
      · exact Cell.noConfusion hx
      · subst hargs
        exact ⟨fun _ => ⟨rfl, rfl⟩, fun _ => ⟨⟨bit, hbit, rfl⟩, rfl⟩⟩

/-- C7 witness: the retiming-register list of a concrete xdr=2 bidirectional
buffer instantiation. -/
theorem C7_xdr2_retiming_asymmetry_witness :
    (cellsOf (get_io_buffer ⟨.io, 2, 1⟩ "PORT" 1 [] none none)).filter Cell.isDff =
      (if PinDir.hasI .io then
        [.dff "i_clk" 1 (ixorName "i0" none ++ "_ff") (ixorName "i0" none),
         .dff "i_clk" 1 (ixorName "i1" none ++ "_ff") (ixorName "i1" none)] else [])
      ++ (if PinDir.hasO .io then
        [.dff "o_clk" 1 (oxorName "o1" none) (oxorName "o1" none ++ "_ff")] else []) :=
  (C7_xdr2_retiming_asymmetry .io none none 1 1 "PORT"
    (cellsOf (get_io_buffer ⟨.io, 2, 1⟩ "PORT" 1 [] none none)) rfl).1

/-- C8 counterexample: `get_diff_output` with invert = False succeeds and still
instantiates two SB_LUT4 passthroughs (one per leg), so the claim that a call
with invert false instantiates no inversion LUT on any data path is false for
the differential-output binder operation. -/
theorem C8_lut_counterexample :
    okE (get_diff_output ⟨.o, 0, 1⟩ "P" 1 "N" 1 [] false) = true
    ∧ lutCount (get_diff_output ⟨.o, 0, 1⟩ "P" 1 "N" 1 [] false) = 2 :=
  ⟨rfl, rfl⟩

/-- C8 (amended): for the single-ended binder operations (input, output,
tristate, input/output) and for the differential input, a call with invert
false instantiates no inversion LUT on any data path; the differential output
is the exception, since it always inserts a passthrough/inverter pair for
delay symmetry. -/
theorem C8_no_inversion_lut_when_not_requested :
    (∀ pin pn pw attrs cells, get_input pin pn pw attrs false = .ok cells →
      cells.countP (fun c => Cell.isLut c) = 0)
    ∧ (∀ pin pn pw attrs cells, get_output pin pn pw attrs false = .ok cells →
      cells.countP (fun c => Cell.isLut c) = 0)
    ∧ (∀ pin pn pw attrs cells, get_tristate pin pn pw attrs false = .ok cells →
      cells.countP (fun c => Cell.isLut c) = 0)
    ∧ (∀ pin pn pw attrs cells, get_input_output pin pn pw attrs false = .ok cells →
      cells.countP (fun c => Cell.isLut c) = 0)
    ∧ (∀ pin pn pw nn nw attrs cells, get_diff_input pin pn pw nn nw attrs false = .ok cells →
      cells.countP (fun c => Cell.isLut c) = 0) := by
  refine ⟨?_, ?_, ?_, ?_, ?_⟩
  · intro pin pn pw attrs cells h
    simp only [get_input, invOpt, ite_false] at h
    split at h
    · exact absurd h (by simp)
    · exact get_io_buffer_no_invert_lutfree pin pn pw attrs cells h
  · intro pin pn pw attrs cells h
    simp only [get_output, invOpt, ite_false] at h
    split at h
    · exact absurd h (by simp)
    · exact get_io_buffer_no_invert_lutfree pin pn pw attrs cells h
  · intro pin pn pw attrs cells h
    simp only [get_tristate, invOpt, ite_false] at h
    split at h
    · exact absurd h (by simp)
    · exact get_io_buffer_no_invert_lutfree pin pn pw attrs cells h
  · intro pin pn pw attrs cells h
    simp only [get_input_output, invOpt, ite_false] at h
    split at h
    · exact absurd h (by simp)
    · exact get_io_buffer_no_invert_lutfree pin pn pw attrs cells h
  · intro pin pn pw nn nw attrs cells h
    simp only [get_diff_input, invOpt, ite_false] at h
    split at h
    · exact absurd h (by simp)
    · exact get_io_buffer_no_invert_lutfree pin pn pw attrs cells h

/-- C8 witness: a concrete non-inverted single-ended input is LUT-free. -/
theorem C8_no_inversion_lut_witness :
    (cellsOf (get_input ⟨.i, 0, 1⟩ "P" 1 [] false)).countP (fun c => Cell.isLut c) = 0 :=
  C8_no_inversion_lut_when_not_requested.1 ⟨.i, 0, 1⟩ "P" 1 []
    (cellsOf (get_input ⟨.i, 0, 1⟩ "P" 1 [] false)) rfl

/-- C9 counterexample: with a truthy GLOBAL attribute and the non-None (but
falsy) i_invert = Some false, `_get_io_buffer` passes its assertion and does
instantiate a primitive, so the claim is false for non-None-but-false
i_invert. -/
theorem C9_counterexample_global_with_false_invert :
    (some false : Option Bool) ≠ (none : Option Bool)
    ∧ globalTruthy [("GLOBAL", IOVal.num 1)] = true
    ∧ okE (get_io_buffer ⟨.i, 0, 1⟩ "PORT" 1 [("GLOBAL", IOVal.num 1)] (some false) none) = true
    ∧ primCount (get_io_buffer ⟨.i, 0, 1⟩ "PORT" 1 [("GLOBAL", IOVal.num 1)] (some false) none)
        = 1 :=
  ⟨by decide, rfl, rfl, rfl⟩

/-- C9 (amended): a truthy GLOBAL attribute together with a truthy (True)
i_invert makes `_get_io_buffer` fail its assertion before instantiating any
primitive. -/
theorem C9_global_with_true_invert_rejected (pin : PinSpec) (pn : String) (pw : Nat)
    (attrs : List (String × IOVal)) (oi : Option Bool)
    (h : globalTruthy attrs = true) :
    get_io_buffer pin pn pw attrs (some true) oi = .error () := by
  simp [get_io_buffer, h, truthyOpt]

/-- C9 witness: the rejection at a concrete global input with inversion. -/
theorem C9_global_with_true_invert_rejected_witness :
    get_io_buffer ⟨.i, 0, 1⟩ "PORT" 1 [("GLOBAL", IOVal.num 1)] (some true) none = .error () :=
  C9_global_with_true_invert_rejected ⟨.i, 0, 1⟩ "PORT" 1 [("GLOBAL", IOVal.num 1)] none rfl

/-- C10: `should_skip_port_component` returns True exactly when the attribute
mapping's IO_STANDARD (defaulting to "SB_LVCMOS") equals "SB_LVDS_INPUT" and
the component is "n"; and `get_diff_input` never touches its n port: its
result is independent of the n port, and every emitted I/O cell binds
PACKAGE_PIN to a bit of the p port. -/
theorem C10_skip_component_and_diff_input :
    (∀ pn attrs comp, should_skip_port_component pn attrs comp = true ↔
      ((flookup "IO_STANDARD" attrs).getD (IOVal.sval "SB_LVCMOS") = IOVal.sval "SB_LVDS_INPUT"
        ∧ comp = "n"))
    ∧ (∀ pin pName pw n1 nw1 n2 nw2 attrs inv,
        get_diff_input pin pName pw n1 nw1 attrs inv = get_diff_input pin pName pw n2 nw2 attrs inv)
    ∧ (∀ pin pName pw nn nw attrs inv cells,
        get_diff_input pin pName pw nn nw attrs inv = .ok cells →
        ∀ c ∈ cells, ∀ g args, c = Cell.sbCell g args →
          ∃ bit, bit < pw ∧ argVal "PACKAGE_PIN" args = some (.sig pName (some bit))) := by
  refine ⟨?_, ?_, ?_⟩
  · intro pn attrs comp
    simp [should_skip_port_component, Bool.and_eq_true, beq_iff_eq]
  · intro pin pName pw n1 nw1 n2 nw2 attrs inv
    rfl
  · intro pin pName pw nn nw attrs inv cells h
    simp only [get_diff_input] at h
    split at h
    · exact absurd h (by simp)
    · exact get_io_buffer_package_pin pin pName pw attrs (invOpt inv) none cells h

/-- C10 witness: the skip predicate fires on a concrete LVDS n component, and
the single I/O cell of a concrete differential input is bound to the p port. -/
theorem C10_skip_component_and_diff_input_witness :
    should_skip_port_component "x" [("IO_STANDARD", IOVal.sval "SB_LVDS_INPUT")] "n" = true
    ∧ (∃ bit, bit < 1 ∧ argVal "PACKAGE_PIN"
        (ioArgs ⟨.i, 0, 1⟩ "P" [] false "i" "i0" "i1" "o" "o0" "o1" 0) =
        some (.sig "P" (some bit))) := by
  constructor
  · exact (C10_skip_component_and_diff_input.1 "x"
      [("IO_STANDARD", IOVal.sval "SB_LVDS_INPUT")] "n").mpr ⟨rfl, rfl⟩
  · exact C10_skip_component_and_diff_input.2.2 ⟨.i, 0, 1⟩ "P" 1 "N" 1 [] false
      (cellsOf (get_diff_input ⟨.i, 0, 1⟩ "P" 1 "N" 1 [] false)) rfl
      (Cell.sbCell false (ioArgs ⟨.i, 0, 1⟩ "P" [] false "i" "i0" "i1" "o" "o0" "o1" 0))
      (by decide) false (ioArgs ⟨.i, 0, 1⟩ "P" [] false "i" "i0" "i1" "o" "o0" "o1" 0) rfl

end ICE40

namespace BuildRes

/-- Appending a binding for a different key does not change a lookup. -/
theorem flookup_append_singleton_ne {κ β : Type} [DecidableEq κ] {l : List (κ × β)}
    {k k' : κ} (v : β) (h : k' ≠ k) : flookup k (l ++ [(k', v)]) = flookup k l := by
  induction l with
  | nil => simp [flookup, h]
  | cons kv rest ih =>
    by_cases hk : kv.1 = k
    · simp [flookup, hk]
    · simp [flookup, hk]
      exact ih

/-- With no connector reference, token resolution is the identity. -/
theorem resolvePins_none (cs : List Connector) (toks : List String) :
    resolvePins cs none toks = some toks := by
  induction toks with
  | nil => rfl
  | cons t ts ih =>
    simp [resolvePins, optMapM, resolvePinTok] at ih ⊢
    rw [ih]

/-- Characterization of a successful token resolution: every resolved pin
comes from resolving the corresponding declared token. -/
theorem resolvePins_some_forall (cs : List Connector) (conn : Option (String × Nat))
    (toks : List String) (ps : List String) (h : resolvePins cs conn toks = some ps) :
    List.Forall₂ (fun t p => resolvePinTok cs conn t = some p) toks ps := by
  induction toks generalizing ps with
  | nil =>
    simp [resolvePins, optMapM] at h
    subst h
    exact List.Forall₂.nil
  | cons t ts ih =>
    simp only [resolvePins, optMapM] at h
    split at h
    · exact absurd h (by simp)
    · split at h
      · exact absurd h (by simp)
      · rw [Option.some.injEq] at h
        subst h
        exact List.Forall₂.cons (by assumption) (ih _ (by assumption))

/-- Claiming entirely fresh, duplicate-free tokens succeeds and appends
exactly the claimed (pin, component) records. -/
theorem claimPins_ok_eq (alloc : List (String × String)) (comp : String)
    (ps : List String) (hN : ps.Nodup) (hF : ∀ p ∈ ps, flookup p alloc = none) :
    claimPins alloc comp ps = .ok (alloc ++ ps.map (fun p => (p, comp))) := by
  induction ps generalizing alloc with
  | nil => simp [claimPins]
  | cons p ps ih =>
    have hp : flookup p alloc = none := hF p (by simp)
    simp only [claimPins, hp]
    have hpmem : p ∉ ps := (List.nodup_cons.mp hN).1
    have hF' : ∀ q ∈ ps, flookup q (alloc ++ [(p, comp)]) = none := by
      intro q hq
      have hqp : p ≠ q := fun hh => hpmem (hh ▸ hq)
      rw [flookup_append_singleton_ne _ hqp]
      exact hF q (by simp [hq])
    rw [ih (alloc ++ [(p, comp)]) hN.of_cons hF']
    simp

/-- Claiming duplicate-free tokens of which at least one is already present
in the allocation record fails with the allocation-conflict error naming the
new component, the prior claimant, and the shared pin. -/
theorem claimPins_conflict (alloc : List (String × String)) (comp : String)
    (ps : List String) (hN : ps.Nodup) (h : ∃ p ∈ ps, (flookup p alloc).isSome) :
    ∃ q ∈ ps, ∃ prior, flookup q alloc = some prior ∧
      claimPins alloc comp ps = .error (.allocConflict comp prior q) := by
  induction ps generalizing alloc with
  | nil => simp at h
  | cons p ps ih =>
    rcases hcase : flookup p alloc with _ | prior
    · have hpmem : p ∉ ps := (List.nodup_cons.mp hN).1
      have hex : ∃ q ∈ ps, (flookup q (alloc ++ [(p, comp)])).isSome := by
        obtain ⟨q, hq, hqs⟩ := h
        rcases List.mem_cons.mp hq with hq' | hq'
        · subst hq'
          rw [hcase] at hqs
          simp at hqs
        · have hqp : p ≠ q := fun hh => hpmem (hh ▸ hq')
          refine ⟨q, hq', ?_⟩
          rw [flookup_append_singleton_ne _ hqp]
          exact hqs
      obtain ⟨q, hq, prior, hprior, hrec⟩ := ih (alloc ++ [(p, comp)]) hN.of_cons hex
      have hqp : p ≠ q := fun hh => hpmem (hh ▸ hq)
      rw [flookup_append_singleton_ne _ hqp] at hprior
      refine ⟨q, by simp [hq], prior, hprior, ?_⟩
      simp only [claimPins, hcase]
      exact hrec
    · exact ⟨p, by simp, prior, hcase, by simp only [claimPins, hcase]⟩

/-- A successful claim extends the allocation record and preserves key
uniqueness. -/
theorem claimPins_extend_nodup (alloc : List (String × String)) (comp : String)
    (ps : List String) (alloc' : List (String × String))
    (h : claimPins alloc comp ps = .ok alloc') :
    (∃ ext, alloc' = alloc ++ ext)
    ∧ ((alloc.map Prod.fst).Nodup → (alloc'.map Prod.fst).Nodup) := by
  induction ps generalizing alloc with
  | nil =>
    simp [claimPins] at h
    subst h
    exact ⟨⟨[], by simp⟩, fun hn => hn⟩
  | cons p ps ih =>
    simp only [claimPins] at h
    split at h
    · exact absurd h (by simp)
    · obtain ⟨⟨ext, hext⟩, hnd⟩ := ih (alloc ++ [(p, comp)]) h
      refine ⟨⟨(p, comp) :: ext, by simp [hext]⟩, fun hn => ?_⟩
      exact hnd (keys_nodup_concat comp hn (by assumption))

/-- Applying a clock annotation never touches the allocation record, the port
list, or the pin records. -/
theorem addClockAnn_ledger (led : Ledger) (port : Port) (c : Option Nat) (led' : Ledger)
    (h : addClockAnn led port c = .ok led') :
    led'.allocation = led.allocation ∧ led'.ports = led.ports
    ∧ led'.sePins = led.sePins ∧ led'.diffPins = led.diffPins := by
  cases c with
  | none =>
    simp [addClockAnn] at h
    subst h
    exact ⟨rfl, rfl, rfl, rfl⟩
  | some f =>
    simp only [addClockAnn] at h
    split at h
    · exact absurd h (by simp)
    · rw [Except.ok.injEq] at h
      subst h
      exact ⟨rfl, rfl, rfl, rfl⟩

/-- A successful leaf resolution extends the allocation record and preserves
key uniqueness. -/
theorem resolveLeaf_alloc (cs : List Connector) (led : Ledger) (comp : String)
    (g : ElecGroup) (dOv : OvArg DirOv) (xOv : OvArg Int) (led' : Ledger)
    (h : resolveLeaf cs led comp g dOv xOv = .ok led') :
    (∃ ext, led'.allocation = led.allocation ++ ext)
    ∧ ((led.allocation.map Prod.fst).Nodup → (led'.allocation.map Prod.fst).Nodup) := by
  simp only [resolveLeaf] at h
  split at h
  · exact absurd h (by simp)
  · split at h
    · exact absurd h (by simp)
    · split at h
      · -- single-ended group
        split at h
        · exact absurd h (by simp)
        · split at h
          · exact absurd h (by simp)
          · split at h
            · exact absurd h (by simp)
            · split at h
              · exact absurd h (by simp)
              · obtain ⟨ha, -, -, -⟩ := addClockAnn_ledger _ _ _ _ h
                obtain ⟨⟨ext, hext⟩, hnd⟩ := claimPins_extend_nodup _ _ _ _ (by assumption)
                rw [ha]
                exact ⟨⟨ext, hext⟩, hnd⟩
      · -- differential group
        split at h
        · exact absurd h (by simp)
        · exact absurd h (by simp)
        · split at h
          · exact absurd h (by simp)
          · split at h
            · exact absurd h (by simp)
            · split at h
              · exact absurd h (by simp)
              · obtain ⟨ha, -, -, -⟩ := addClockAnn_ledger _ _ _ _ h
                obtain ⟨⟨ext, hext⟩, hnd⟩ := claimPins_extend_nodup _ _ _ _ (by assumption)
                rw [ha]
                exact ⟨⟨ext, hext⟩, hnd⟩

mutual
/-- A successful body resolution extends the allocation record and preserves
key uniqueness. -/
theorem resolveBody_alloc (b : ResBody) : ∀ (cs : List Connector) (led : Ledger)
    (comp : String) (dOv : OvArg DirOv) (xOv : OvArg Int) (led' : Ledger),
    resolveBody cs led comp b dOv xOv = .ok led' →
    (∃ ext, led'.allocation = led.allocation ++ ext)
    ∧ ((led.allocation.map Prod.fst).Nodup → (led'.allocation.map Prod.fst).Nodup) := by
  cases b with
  | leaf g =>
    intro cs led comp dOv xOv led' h
    exact resolveLeaf_alloc cs led comp g dOv xOv led' h
  | node subs =>
    intro cs led comp dOv xOv led' h
    simp only [resolveBody] at h
    split at h
    · exact absurd h (by simp)
    · split at h
      · exact absurd h (by simp)
      · exact resolveSubs_alloc subs cs led comp dOv xOv led' h
/-- A successful subsignal-list resolution extends the allocation record and
preserves key uniqueness. -/
theorem resolveSubs_alloc (subs : Subsigs) : ∀ (cs : List Connector) (led : Ledger)
    (comp : String) (dOv : OvArg DirOv) (xOv : OvArg Int) (led' : Ledger),
    resolveSubs cs led comp subs dOv xOv = .ok led' →
    (∃ ext, led'.allocation = led.allocation ++ ext)
    ∧ ((led.allocation.map Prod.fst).Nodup → (led'.allocation.map Prod.fst).Nodup) := by
  cases subs with
  | nil =>
    intro cs led comp dOv xOv led' h
    simp [resolveSubs] at h
    subst h
    exact ⟨⟨[], by simp⟩, fun hn => hn⟩
  | cons nm b rest =>
    intro cs led comp dOv xOv led' h
    simp only [resolveSubs] at h
    split at h
    · exact absurd h (by simp)
    · obtain ⟨⟨ext1, hext1⟩, hnd1⟩ := resolveBody_alloc b cs led _ _ _ _ (by assumption)
      obtain ⟨⟨ext2, hext2⟩, hnd2⟩ := resolveSubs_alloc rest cs _ comp dOv xOv led' h
      refine ⟨⟨ext1 ++ ext2, by rw [hext2, hext1, List.append_assoc]⟩, fun hn => ?_⟩
      exact hnd2 (hnd1 hn)
end

/-- A successful request leaves the databases unchanged, records the identity,
extends the allocation record, and preserves allocation-key uniqueness. -/
theorem request_ok_state (st : Session) (name : String) (number : Nat)
    (dOv : OvArg DirOv) (xOv : OvArg Int) (st' : Session)
    (h : request st name number dOv xOv = .ok st') :
    st'.resources = st.resources
    ∧ st'.requested = st.requested ++ [(name, number)]
    ∧ (∃ ext, st'.ledger.allocation = st.ledger.allocation ++ ext)
    ∧ ((st.ledger.allocation.map Prod.fst).Nodup →
        (st'.ledger.allocation.map Prod.fst).Nodup) := by
  simp only [request] at h
  split at h
  · exact absurd h (by simp)
  · split at h
    · exact absurd h (by simp)
    · split at h
      · exact absurd h (by simp)
      · rw [Except.ok.injEq] at h
        subst h
        obtain ⟨hext, hnd⟩ := resolveBody_alloc _ _ _ _ _ _ _ (by assumption)
        exact ⟨rfl, rfl, hext, hnd⟩

/-- Full characterization of a successful request of a single-ended leaf
resource with no connector reference, no Clock annotation, and no overrides:
the identity is recorded, the fresh pins are claimed for the component, and
one `__io` Port carrying the declared pins is produced together with its
single-ended binder record. -/
theorem request_single_leaf_ok (st : Session) (n : String) (i : Nat) (ps : List String)
    (d : PDir) (inv : Bool) (attrs : List (String × String))
    (hlook : st.lookup n i = some (.leaf ⟨.single ps, none, d, inv, attrs, none⟩))
    (hreq : (n, i) ∉ st.requested) (hN : ps.Nodup)
    (hF : ∀ p ∈ ps, flookup p st.ledger.allocation = none) :
    request st n i .none .none = .ok
      { st with
        requested := st.requested ++ [(n, i)]
        ledger :=
        { st.ledger with
          allocation := st.ledger.allocation
            ++ ps.map (fun p => (p, n ++ "_" ++ toString i))
          ports := st.ledger.ports ++ [⟨n ++ "_" ++ toString i ++ "__io", ps.length, ps⟩]
          sePins := st.ledger.sePins
            ++ [(⟨n ++ "_" ++ toString i ++ "__io", ps.length, ps⟩, attrs, inv)] } } := by
  simp only [request, hlook, if_neg hreq, resolveBody, resolveLeaf, OvArg.isMap,
    Bool.false_eq_true, if_neg, ite_false, resolvePins_none,
    claimPins_ok_eq st.ledger.allocation (n ++ "_" ++ toString i) ps hN hF,
    resolveDir, resolveXdr, addClockAnn]
  simp

/-- A request of a single-ended leaf resource one of whose resolved pins is
already claimed fails with the allocation-conflict error naming the new
component, the prior claimant, and the shared pin. -/
theorem request_single_leaf_conflict (st : Session) (n : String) (i : Nat) (ps : List String)
    (d : PDir) (inv : Bool) (attrs : List (String × String)) (clk : Option Nat)
    (hlook : st.lookup n i = some (.leaf ⟨.single ps, none, d, inv, attrs, clk⟩))
    (hreq : (n, i) ∉ st.requested) (hN : ps.Nodup)
    (h : ∃ p ∈ ps, (flookup p st.ledger.allocation).isSome) :
    ∃ q ∈ ps, ∃ prior, flookup q st.ledger.allocation = some prior ∧
      request st n i .none .none =
        .error (.allocConflict (n ++ "_" ++ toString i) prior q) := by
  obtain ⟨q, hq, prior, hprior, hrec⟩ :=
    claimPins_conflict st.ledger.allocation (n ++ "_" ++ toString i) ps hN h
  refine ⟨q, hq, prior, hprior, ?_⟩
  simp only [request, hlook, if_neg hreq, resolveBody, resolveLeaf, OvArg.isMap,
    Bool.false_eq_true, if_neg, ite_false, resolvePins_none, hrec]

/-- Full characterization of a successful request of a differential leaf
resource with no connector reference, no Clock annotation, and no overrides:
the p and n pin sets are claimed, a `__p`/`__n` Port pair carrying the
declared tokens unchanged is produced, and the declared inversion appears
only as the boolean flag of the differential binder record. -/
theorem request_diff_leaf_ok (st : Session) (n : String) (i : Nat) (ps ns : List String)
    (d : PDir) (inv : Bool) (attrs : List (String × String))
    (hlook : st.lookup n i = some (.leaf ⟨.diff ps ns, none, d, inv, attrs, none⟩))
    (hreq : (n, i) ∉ st.requested) (hN : (ps ++ ns).Nodup)
    (hF : ∀ p ∈ ps ++ ns, flookup p st.ledger.allocation = none) :
    request st n i .none .none = .ok
      { st with
        requested := st.requested ++ [(n, i)]
        ledger :=
        { st.ledger with
          allocation := st.ledger.allocation
            ++ (ps ++ ns).map (fun p => (p, n ++ "_" ++ toString i))
          ports := st.ledger.ports
            ++ [⟨n ++ "_" ++ toString i ++ "__p", ps.length, ps⟩,
                ⟨n ++ "_" ++ toString i ++ "__n", ns.length, ns⟩]
          diffPins := st.ledger.diffPins
            ++ [(⟨n ++ "_" ++ toString i ++ "__p", ps.length, ps⟩,
                 ⟨n ++ "_" ++ toString i ++ "__n", ns.length, ns⟩, attrs, inv)] } } := by
  simp only [request, hlook, if_neg hreq, resolveBody, resolveLeaf, OvArg.isMap,
    Bool.false_eq_true, if_neg, ite_false, resolvePins_none,
    claimPins_ok_eq st.ledger.allocation (n ++ "_" ++ toString i) (ps ++ ns) hN hF,
    resolveDir, resolveXdr, addClockAnn]
  simp

/-- C1: for every request whose resolution is about to claim a physical pin
token, if that token was already claimed by an earlier request in the
session, the request fails with an allocation-conflict error naming the newly
requested resource component, the prior claimant's component, and the shared
physical pin; otherwise the token is claimed and recorded; and the allocation
record only grows and never maps one pin to two claimants (key uniqueness is
preserved by every successful request). -/
theorem C1_physical_pin_exclusivity :
    (∀ (st : Session) (n : String) (i : Nat) (ps : List String) (d : PDir) (inv : Bool)
        (attrs : List (String × String)),
      st.lookup n i = some (.leaf ⟨.single ps, none, d, inv, attrs, none⟩) →
      (n, i) ∉ st.requested → ps.Nodup →
      (∀ p ∈ ps, flookup p st.ledger.allocation = none) →
      ∃ st', request st n i .none .none = .ok st' ∧
        st'.ledger.allocation = st.ledger.allocation
          ++ ps.map (fun p => (p, n ++ "_" ++ toString i)))
    ∧ (∀ (st : Session) (n : String) (i : Nat) (ps : List String) (d : PDir) (inv : Bool)
        (attrs : List (String × String)) (clk : Option Nat),
      st.lookup n i = some (.leaf ⟨.single ps, none, d, inv, attrs, clk⟩) →
      (n, i) ∉ st.requested → ps.Nodup →
      (∃ p ∈ ps, (flookup p st.ledger.allocation).isSome) →
      ∃ q ∈ ps, ∃ prior, flookup q st.ledger.allocation = some prior ∧
        request st n i .none .none =
          .error (.allocConflict (n ++ "_" ++ toString i) prior q))
    ∧ (∀ (st : Session) (n : String) (i : Nat) (dOv : OvArg DirOv) (xOv : OvArg Int)
        (st' : Session),
      (st.ledger.allocation.map Prod.fst).Nodup →
      request st n i dOv xOv = .ok st' →
      (∃ ext, st'.ledger.allocation = st.ledger.allocation ++ ext)
      ∧ (st'.ledger.allocation.map Prod.fst).Nodup) := by
  refine ⟨?_, ?_, ?_⟩
  · intro st n i ps d inv attrs hlook hreq hN hF
    exact ⟨_, request_single_leaf_ok st n i ps d inv attrs hlook hreq hN hF, rfl⟩
  · intro st n i ps d inv attrs clk hlook hreq hN h
    exact request_single_leaf_conflict st n i ps d inv attrs clk hlook hreq hN h
  · intro st n i dOv xOv st' hnd h
    obtain ⟨-, -, hext, hpres⟩ := request_ok_state st n i dOv xOv st' h
    exact ⟨hext, hpres hnd⟩

/-- C1 witness: requesting clk20 (pin H1) after H1 was claimed by clk100_0
fails with the allocation conflict naming both components and H1. -/
theorem C1_physical_pin_exclusivity_witness :
    ∃ q ∈ ["H1"], ∃ prior, flookup q conflictSession.ledger.allocation = some prior ∧
      request conflictSession "clk20" 0 .none .none =
        .error (.allocConflict ("clk20" ++ "_" ++ toString 0) prior q) :=
  C1_physical_pin_exclusivity.2.1 conflictSession "clk20" 0 ["H1"] .i false [] none
    rfl (by decide) (by decide) ⟨"H1", by decide, by decide⟩

/-- C2: a second request with the same (name, number) after a first
successful one fails with the already-requested identity error, and a
request for an identity not present in the database fails with the
does-not-exist error. -/
theorem C2_identity_errors :
    (∀ (st : Session) (n : String) (i : Nat) (dOv : OvArg DirOv) (xOv : OvArg Int),
      st.lookup n i = none →
      request st n i dOv xOv = .error (.doesNotExist n i))
    ∧ (∀ (st st' : Session) (n : String) (i : Nat) (dOv dOv' : OvArg DirOv)
        (xOv xOv' : OvArg Int),
      request st n i dOv xOv = .ok st' →
      request st' n i dOv' xOv' = .error (.alreadyRequested n i)) := by
  constructor
  · intro st n i dOv xOv hlook
    simp [request, hlook]
  · intro st st' n i dOv dOv' xOv xOv' h
    obtain ⟨hres, hreqs, -, -⟩ := request_ok_state st n i dOv xOv st' h
    have hmem : (n, i) ∈ st'.requested := by
      rw [hreqs]
      simp
    simp only [request] at h ⊢
    rcases hl : st.lookup n i with _ | body
    · rw [hl] at h
      exact absurd h (by simp)
    · have hlook' : st'.lookup n i = some body := by
        simp only [Session.lookup] at hl ⊢
        rw [hres]
        exact hl
      rw [hlook']
      simp [hmem]

/-- C2 witness: a concrete lookup failure and a concrete duplicate request. -/
theorem C2_identity_errors_witness :
    request (leafSession .o) "missing" 3 .none .none = .error (.doesNotExist "missing" 3)
    ∧ (∀ st', request (leafSession .o) "r" 0 .none .none = .ok st' →
        request st' "r" 0 .none .none = .error (.alreadyRequested "r" 0)) := by
  constructor
  · exact C2_identity_errors.1 (leafSession .o) "missing" 3 .none .none rfl
  · intro st' h
    exact C2_identity_errors.2 (leafSession .o) st' "r" 0 .none .none .none .none h

/-- C3: for every leaf resource with declared direction d and every direction
override d', request accepts the override exactly when d' equals d, or d is
io and d' is one of i, o, oe, or d' is raw ("-"); any other transition fails
naming the disallowed pair. -/
theorem C3_direction_override_lattice :
    ∀ d d' : PDir,
      (okE (request (leafSession d) "r" 0 (.scalar (.dir d')) .none) = true ↔
        (d' = d ∨ (d = .io ∧ (d' = .i ∨ d' = .o ∨ d' = .oe))))
      ∧ okE (request (leafSession d) "r" 0 (.scalar .raw) .none) = true
      ∧ (¬(d' = d ∨ (d = .io ∧ (d' = .i ∨ d' = .o ∨ d' = .oe))) →
        errE (request (leafSession d) "r" 0 (.scalar (.dir d')) .none) =
          some (.dirDisallowed d d')) := by
  intro d d'
  cases d <;> cases d' <;> refine ⟨?_, ?_, ?_⟩ <;> decide

/-- C3 witness: requesting the declared-output resource with dir i (the
spec's user_led example) fails naming the pair o, i. -/
theorem C3_direction_override_lattice_witness :
    errE (request (leafSession .o) "r" 0 (.scalar (.dir .i)) .none) =
      some (.dirDisallowed .o .i) :=
  (C3_direction_override_lattice .o .i).2.2 (by decide)

/-- C6: add_clock_constraint fails when its target is not a Port produced by
a prior request, fails when the frequency is not numeric, fails when the
target Port already carries a clock constraint naming the existing
frequency, and a successful addition keeps at most one constraint per
Port. -/
theorem C6_clock_constraint_rules :
    (∀ (st : Session) (target : String) (freq : FreqArg),
      (∀ p ∈ st.ledger.ports, p.name ≠ target) →
      add_clock_constraint st target freq = .error .clockNotPort)
    ∧ (∀ (st : Session) (target : String),
      (∃ p ∈ st.ledger.ports, p.name = target) →
      add_clock_constraint st target .nonNum = .error .freqNotNumeric)
    ∧ (∀ (st : Session) (target : String) (f f0 : Nat),
      (∃ p ∈ st.ledger.ports, p.name = target) →
      flookup target st.ledger.clocks = some f0 →
      add_clock_constraint st target (.num f) = .error (.clockExists target f0))
    ∧ (∀ (st : Session) (target : String) (freq : FreqArg) (st' : Session),
      (st.ledger.clocks.map Prod.fst).Nodup →
      add_clock_constraint st target freq = .ok st' →
      (st'.ledger.clocks.map Prod.fst).Nodup) := by
  refine ⟨?_, ?_, ?_, ?_⟩
  · intro st target freq h
    have hall : st.ledger.ports.all (fun p => p.name != target) = true := by
      rw [List.all_eq_true]
      intro p hp
      simpa using h p hp
    simp [add_clock_constraint, hall]
  · intro st target h
    obtain ⟨p, hp, hname⟩ := h
    have hall : st.ledger.ports.all (fun q => q.name != target) = false := by
      apply Bool.eq_false_iff.mpr
      intro hall
      rw [List.all_eq_true] at hall
      have := hall p hp
      simp [hname] at this
    simp [add_clock_constraint, hall]
  · intro st target f f0 h hclk
    obtain ⟨p, hp, hname⟩ := h
    have hall : st.ledger.ports.all (fun q => q.name != target) = false := by
      apply Bool.eq_false_iff.mpr
      intro hall
      rw [List.all_eq_true] at hall
      have := hall p hp
      simp [hname] at this
    simp [add_clock_constraint, hall, hclk]
  · intro st target freq st' hnd h
    simp only [add_clock_constraint] at h
    split at h
    · exact absurd h (by simp)
    · split at h
      · exact absurd h (by simp)
      · split at h
        · exact absurd h (by simp)
        · rw [Except.ok.injEq] at h
          subst h
          exact keys_nodup_concat _ hnd (by assumption)

/-- C6 witness: a second constraint on the already-constrained port fails
naming the existing frequency. -/
theorem C6_clock_constraint_rules_witness :
    add_clock_constraint clockSession "clk_0__io" (.num 5) =
      .error (.clockExists "clk_0__io" 100) :=
  C6_clock_constraint_rules.2.2.1 clockSession "clk_0__io" 5 100
    ⟨⟨"clk_0__io", 1, ["K1"]⟩, by decide, rfl⟩ rfl

/-- Soundness of the fuel-bounded chain resolution with respect to the
chain-following relation. -/
theorem resolveChain_sound (cs : List Connector) :
    ∀ (fuel : Nat) (cn : String) (ci : Nat) (label p : String),
      resolveChain cs fuel cn ci label = some p → ChainsTo cs cn ci label p := by
  intro fuel
  induction fuel with
  | zero =>
    intro cn ci label p h
    simp [resolveChain] at h
  | succ fuel ih =>
    intro cn ci label p h
    simp only [resolveChain] at h
    split at h
    · exact absurd h (by simp)
    · split at h
      · exact absurd h (by simp)
      · rw [Option.some.injEq] at h
        subst h
        exact ChainsTo.lit (by assumption) (by assumption)
      · exact ChainsTo.step (by assumption) (by assumption) (ih _ _ _ _ h)

/-- C4: for every resource whose declared pin tokens are connector-relative
labels, the physical pins resolved by request are the literal tokens obtained
by looking each label up in the referenced connector and following any chain
of connector indirections until a literal pin name is reached; the produced
port constraint carries those mapped literal tokens, not the labels. -/
theorem C4_connector_chain_resolution :
    (∀ (cs : List Connector) (fuel : Nat) (cn : String) (ci : Nat) (label p : String),
      resolveChain cs fuel cn ci label = some p → ChainsTo cs cn ci label p)
    ∧ (∀ (cs : List Connector) (cc : String × Nat) (labels : List String) (d : PDir)
        (st' : Session),
      request (connSession cs cc labels d) "r" 0 .none .none = .ok st' →
      ∃ ps, st'.ledger.ports = [⟨"r" ++ "_" ++ toString 0 ++ "__io", ps.length, ps⟩]
        ∧ List.Forall₂ (fun l p => ChainsTo cs cc.1 cc.2 l p) labels ps) := by
  constructor
  · exact fun cs => resolveChain_sound cs
  · intro cs cc labels d st' h
    obtain ⟨cn, ci⟩ := cc
    simp only [request, Session.lookup, connSession, flookup, if_pos] at h
    rw [if_neg (by simp)] at h
    simp only [resolveBody, resolveLeaf, OvArg.isMap, Bool.false_eq_true, if_neg,
      ite_false, not_false_iff] at h
    split at h
    · exact absurd h (by simp)
    · rw [Except.ok.injEq] at h
      subst h
      rename_i led' heq
      rcases hres : resolvePins cs (some (cn, ci)) labels with _ | ps
      · rw [hres] at heq
        dsimp only at heq
        exact absurd heq (by simp)
      · rw [hres] at heq
        dsimp only at heq
        rcases hclaim : claimPins [] ("r" ++ "_" ++ toString 0) ps with e | alloc'
        · rw [hclaim] at heq
          exact absurd heq (by simp)
        · rw [hclaim] at heq
          dsimp only at heq
          simp only [resolveDir, resolveXdr, addClockAnn] at heq
          rw [if_neg (by simp)] at heq
          rw [Except.ok.injEq] at heq
          subst heq
          refine ⟨ps, by simp, ?_⟩
          have hforall := resolvePins_some_forall cs (some (cn, ci)) labels ps hres
          refine List.Forall₂.imp ?_ hforall
          intro a b hab
          simp only [resolvePinTok] at hab
          exact resolveChain_sound cs _ _ _ _ _ hab

/-- C4 witness: the chained label 1 resolves through pmod and hdr to the
literal pin B0 carried by the produced port. -/
theorem C4_connector_chain_resolution_witness :
    ∃ ps, chainAfter.ledger.ports = [⟨"r" ++ "_" ++ toString 0 ++ "__io", ps.length, ps⟩]
      ∧ List.Forall₂ (fun l p => ChainsTo chainConnectors ("pmod", 0).1 ("pmod", 0).2 l p)
          ["1"] ps :=
  C4_connector_chain_resolution.2 chainConnectors ("pmod", 0) ["1"] .i chainAfter rfl

/-- C5: a resolved single-ended group produces exactly one Port named
`{resource}_{number}__io` bound to the declared pins in order; a differential
group produces exactly the two Ports `__p` and `__n`; a declared-inverted
group keeps its physical tokens unchanged, the inversion being surfaced to
the binder only as the boolean flag of the single-ended / differential pin
record; and a subsignal path contributes its `__{subsignal}` segment to the
port name. -/
theorem C5_port_shapes :
    (∀ (pins : List String) (d : PDir) (inv : Bool) (attrs : List (String × String)),
      pins.Nodup →
      ∃ st', request (leafGroupSession ⟨.single pins, none, d, inv, attrs, none⟩)
          "r" 0 .none .none = .ok st'
        ∧ st'.ledger.ports = [⟨"r" ++ "_" ++ toString 0 ++ "__io", pins.length, pins⟩]
        ∧ st'.ledger.sePins =
            [(⟨"r" ++ "_" ++ toString 0 ++ "__io", pins.length, pins⟩, attrs, inv)]
        ∧ st'.ledger.diffPins = [])
    ∧ (∀ (ps ns : List String) (d : PDir) (inv : Bool) (attrs : List (String × String)),
      (ps ++ ns).Nodup →
      ∃ st', request (leafGroupSession ⟨.diff ps ns, none, d, inv, attrs, none⟩)
          "r" 0 .none .none = .ok st'
        ∧ st'.ledger.ports = [⟨"r" ++ "_" ++ toString 0 ++ "__p", ps.length, ps⟩,
                              ⟨"r" ++ "_" ++ toString 0 ++ "__n", ns.length, ns⟩]
        ∧ st'.ledger.diffPins =
            [(⟨"r" ++ "_" ++ toString 0 ++ "__p", ps.length, ps⟩,
              ⟨"r" ++ "_" ++ toString 0 ++ "__n", ns.length, ns⟩, attrs, inv)]
        ∧ st'.ledger.sePins = [])
    ∧ (∀ (pins : List String) (d : PDir) (inv : Bool) (attrs : List (String × String)),
      pins.Nodup →
      ∃ st', request (subSession ⟨.single pins, none, d, inv, attrs, none⟩)
          "r" 0 .none .none = .ok st'
        ∧ st'.ledger.ports =
            [⟨"r" ++ "_" ++ toString 0 ++ "__" ++ "s" ++ "__io", pins.length, pins⟩]) := by
  refine ⟨?_, ?_, ?_⟩
  · intro pins d inv attrs hN
    exact ⟨_, request_single_leaf_ok (leafGroupSession ⟨.single pins, none, d, inv, attrs, none⟩)
      "r" 0 pins d inv attrs rfl (by simp [leafGroupSession]) hN (fun p _ => rfl),
      rfl, rfl, rfl⟩
  · intro ps ns d inv attrs hN
    exact ⟨_, request_diff_leaf_ok (leafGroupSession ⟨.diff ps ns, none, d, inv, attrs, none⟩)
      "r" 0 ps ns d inv attrs rfl (by simp [leafGroupSession]) hN (fun p _ => rfl),
      rfl, rfl, rfl⟩
  · intro pins d inv attrs hN
    have hr : request (subSession ⟨.single pins, none, d, inv, attrs, none⟩) "r" 0 .none .none
        = .ok
        { resources := (subSession ⟨.single pins, none, d, inv, attrs, none⟩).resources
          connectors := []
          requested := [("r", 0)]
          ledger :=
            ⟨pins.map (fun p => (p, "r" ++ "_" ++ toString 0 ++ "__" ++ "s")),
             [⟨"r" ++ "_" ++ toString 0 ++ "__" ++ "s" ++ "__io", pins.length, pins⟩],
             [(⟨"r" ++ "_" ++ toString 0 ++ "__" ++ "s" ++ "__io", pins.length, pins⟩,
               attrs, inv)],
             [], []⟩ } := by
      simp only [request, Session.lookup, subSession, flookup, ite_true]
      rw [if_neg (by simp)]
      simp only [resolveBody, resolveSubs, OvArg.isScalar, OvArg.forSub, Bool.false_eq_true,
        if_neg, ite_false, not_false_iff, resolveLeaf, OvArg.isMap, resolvePins_none,
        claimPins_ok_eq [] ("r" ++ "_" ++ toString 0 ++ "__" ++ "s") pins hN (fun p _ => rfl),
        resolveDir, resolveXdr, addClockAnn]
      simp [subSession]
    exact ⟨_, hr, rfl⟩

/-- C5 witness: a declared-inverted differential pair produces exactly the p
and n ports carrying the unchanged tokens Y0 and Y1, with inversion surfaced
only as the boolean flag of the differential record. -/
theorem C5_port_shapes_witness :
    ∃ st', request (leafGroupSession ⟨.diff ["Y0"] ["Y1"], none, .i, true, [], none⟩)
        "r" 0 .none .none = .ok st'
      ∧ st'.ledger.ports =
          [⟨"r" ++ "_" ++ toString 0 ++ "__p", (["Y0"] : List String).length, ["Y0"]⟩,
           ⟨"r" ++ "_" ++ toString 0 ++ "__n", (["Y1"] : List String).length, ["Y1"]⟩]
      ∧ st'.ledger.diffPins =
          [(⟨"r" ++ "_" ++ toString 0 ++ "__p", (["Y0"] : List String).length, ["Y0"]⟩,
            ⟨"r" ++ "_" ++ toString 0 ++ "__n", (["Y1"] : List String).length, ["Y1"]⟩,
            [], true)]
      ∧ st'.ledger.sePins = [] :=
  C5_port_shapes.2.1 ["Y0"] ["Y1"] .i true [] (by decide)

end BuildRes
